import Mathlib

/-!
Verification of the day/night overlay core of the world-clock dashboard
(`src/WorldMapWithSunlight.jsx`).

The development embeds the three components of the core:

* `getSubsolarPoint` (subsolar-point calculator, lines 12-50 of the source),
  modelled over `ℝ` with JavaScript's truncating `%` operator made explicit;
* `drawSunlightMask` (day/night mask renderer, lines 53-96), modelled as the
  trace of host calls, inverse-projection samples and byte writes the pixel
  loop performs, together with the resulting RGBA buffer;
* the mount/cleanup effect (overlay scheduler, lines 103-150), modelled as a
  step function on an explicit overlay state.
-/

open Real

/-- Degrees-to-radians factor `Math.PI / 180` (source line 14). -/
noncomputable def rad : ℝ := π / 180

/-- Truncation toward zero, the rounding used by the JavaScript `%` operator. -/
noncomputable def jsTrunc (r : ℝ) : ℤ := if 0 ≤ r then ⌊r⌋ else ⌈r⌉

/-- The JavaScript remainder `x % y`: `x - y * trunc (x / y)`.  For
nonnegative `x` and positive `y` it agrees with the mathematical `mod`;
for negative `x` its result is in `(-y, 0]`. -/
noncomputable def jsMod (x y : ℝ) : ℝ := x - y * (jsTrunc (x / y) : ℝ)

/-- JavaScript `Math.atan2 y x` on real arguments (no signed zeros or NaNs). -/
noncomputable def atan2 (y x : ℝ) : ℝ :=
  if 0 < x then arctan (y / x)
  else if x < 0 then (if 0 ≤ y then arctan (y / x) + π else arctan (y / x) - π)
  else if 0 < y then π / 2
  else if y < 0 then -(π / 2)
  else 0

/-- The subsolar point returned by `getSubsolarPoint` (source line 49). -/
structure SubsolarPoint where
  lat : ℝ
  lon : ℝ

/-- Milliseconds per day, `1000 * 60 * 60 * 24` (source line 15). -/
noncomputable def dayMs : ℝ := 1000 * 60 * 60 * 24

/-- `Date.UTC(2000, 0, 1, 12, 0, 0)`, the J2000 epoch in Unix milliseconds
(source line 16). -/
noncomputable def J2000 : ℝ := 946728000000

/-- Days since the J2000 epoch for a timestamp `t` in milliseconds
(source line 17).  `t` ranges over `ℝ`: the spec's `Instant` has at least
millisecond resolution. -/
noncomputable def sunD (t : ℝ) : ℝ := (t - J2000) / dayMs

/-- Mean longitude `L` (source line 20). -/
noncomputable def sunL (t : ℝ) : ℝ := jsMod (280.460 + 0.9856474 * sunD t) 360

/-- Mean anomaly `g` (source line 21). -/
noncomputable def sunG (t : ℝ) : ℝ := jsMod (357.528 + 0.9856003 * sunD t) 360

/-- Ecliptic longitude `lambda` (source line 24). -/
noncomputable def sunLambda (t : ℝ) : ℝ :=
  sunL t + 1.915 * sin (sunG t * rad) + 0.020 * sin (2 * sunG t * rad)

/-- Obliquity of the ecliptic `epsilon` (source line 27). -/
noncomputable def sunEpsilon (t : ℝ) : ℝ := 23.439 - 0.0000004 * sunD t

/-- Declination in degrees (source lines 30-31); this is the returned
latitude. -/
noncomputable def sunDec (t : ℝ) : ℝ :=
  arcsin (sin (sunEpsilon t * rad) * sin (sunLambda t * rad)) / rad

/-- Right ascension in degrees before normalization (source lines 34-36). -/
noncomputable def sunRA0 (t : ℝ) : ℝ :=
  atan2 (cos (sunEpsilon t * rad) * sin (sunLambda t * rad))
    (cos (sunLambda t * rad)) / rad

/-- Right ascension in degrees, normalized to `[0, 360)` by the
`if (ra < 0) ra += 360` step of source line 37. -/
noncomputable def sunRA (t : ℝ) : ℝ := if sunRA0 t < 0 then sunRA0 t + 360 else sunRA0 t

/-- The raw (unreduced) Greenwich Mean Sidereal Time polynomial of
source line 40. -/
noncomputable def gmstRaw (d : ℝ) : ℝ := 280.46061837 + 360.98564736629 * d

/-- Greenwich Mean Sidereal Time in degrees (source line 40). -/
noncomputable def sunGMST (t : ℝ) : ℝ := jsMod (gmstRaw (sunD t)) 360

/-- First normalization branch of source line 44: `if (lon > 180) lon -= 360`. -/
noncomputable def normLonStep1 (v : ℝ) : ℝ := if 180 < v then v - 360 else v

/-- The longitude normalization of source lines 43-45: after `% 360`, shift
into range by a single conditional step at each end (line 44 then line 45). -/
noncomputable def normLon (v : ℝ) : ℝ :=
  if normLonStep1 v < -180 then normLonStep1 v + 360 else normLonStep1 v

/-- Subsolar longitude in degrees East (source lines 43-45). -/
noncomputable def sunLon (t : ℝ) : ℝ := normLon (jsMod (sunRA t - sunGMST t) 360)

/-- `getSubsolarPoint` (source lines 12-50): subsolar latitude and longitude
for timestamp `t` in milliseconds. -/
noncomputable def getSubsolarPoint (t : ℝ) : SubsolarPoint :=
  { lat := sunDec t, lon := sunLon t }

/-! Spec-side definitions for the refinement claims.  These follow the
formula sequence of the spec (section 4.1) literally, with `mod 360`
read as the mathematical modulus into `[0, 360)`. -/

/-- Spec formula 1: fractional days since the J2000.0 epoch. -/
noncomputable def specDays (t : ℝ) : ℝ := (t - J2000) / dayMs

/-- Mathematical modulus by `360` into `[0, 360)`, as written in the spec. -/
noncomputable def specMod360 (x : ℝ) : ℝ := x - 360 * (⌊x / 360⌋ : ℝ)

/-- Spec formula 2: mean solar longitude `L = (280.460 + 0.9856474 d) mod 360`. -/
noncomputable def specMeanLong (t : ℝ) : ℝ :=
  specMod360 (280.460 + 0.9856474 * specDays t)

/-- Spec formula 3: mean anomaly `g = (357.528 + 0.9856003 d) mod 360`. -/
noncomputable def specMeanAnomaly (t : ℝ) : ℝ :=
  specMod360 (357.528 + 0.9856003 * specDays t)

/-- Spec formula 4: ecliptic longitude `lambda = L + 1.915 sin g + 0.020 sin 2g`
(trigonometry evaluated in radians). -/
noncomputable def specEclipticLong (t : ℝ) : ℝ :=
  specMeanLong t + 1.915 * sin (specMeanAnomaly t * rad)
    + 0.020 * sin (2 * specMeanAnomaly t * rad)

/-- Spec formula 5: obliquity `epsilon = 23.439 - 0.0000004 d`. -/
noncomputable def specObliquity (t : ℝ) : ℝ := 23.439 - 0.0000004 * specDays t

/-- Spec formula 6: declination `asin (sin epsilon * sin lambda)`, converted
back to degrees; per the spec this is the subsolar latitude directly. -/
noncomputable def specLatitude (t : ℝ) : ℝ :=
  arcsin (sin (specObliquity t * rad) * sin (specEclipticLong t * rad)) / rad

/-! Basic facts about the embedding. -/

lemma rad_pos : 0 < rad := by
  unfold rad
  positivity

/-- Shifting a degree argument by an integer multiple of `360` does not change
its sine. -/
lemma sin_sub_360_int (x : ℝ) (k : ℤ) : sin ((x - 360 * k) * rad) = sin (x * rad) := by
  have h : (x - 360 * (k : ℝ)) * rad = x * rad - k * (2 * π) := by
    unfold rad; ring
  rw [h, Real.sin_sub_int_mul_two_pi]

/-- Shifting a degree argument by an integer multiple of `360` does not change
its cosine. -/
lemma cos_sub_360_int (x : ℝ) (k : ℤ) : cos ((x - 360 * k) * rad) = cos (x * rad) := by
  have h : (x - 360 * (k : ℝ)) * rad = x * rad - k * (2 * π) := by
    unfold rad; ring
  rw [h, Real.cos_sub_int_mul_two_pi]

/-- The ecliptic-longitude expression built from `360`-reduced mean longitude
and anomaly has the same sine as the one built from the raw values. -/
lemma ecliptic_sin_eq (a g : ℝ) (j k : ℤ) :
    sin (((a - 360 * (j : ℝ)) + 1.915 * sin ((g - 360 * (k : ℝ)) * rad)
        + 0.020 * sin (2 * (g - 360 * (k : ℝ)) * rad)) * rad)
      = sin ((a + 1.915 * sin (g * rad) + 0.020 * sin (2 * g * rad)) * rad) := by
  have h1 : sin ((g - 360 * (k : ℝ)) * rad) = sin (g * rad) := sin_sub_360_int g k
  have h2 : sin (2 * (g - 360 * (k : ℝ)) * rad) = sin (2 * g * rad) := by
    have ha : 2 * (g - 360 * (k : ℝ)) = 2 * g - 360 * ((2 * k : ℤ) : ℝ) := by
      push_cast; ring
    rw [ha, sin_sub_360_int (2 * g) (2 * k)]
  rw [h1, h2]
  have hb : ((a - 360 * (j : ℝ)) + 1.915 * sin (g * rad) + 0.020 * sin (2 * g * rad))
      = ((a + 1.915 * sin (g * rad) + 0.020 * sin (2 * g * rad)) - 360 * (j : ℝ)) := by
    ring
  rw [hb, sin_sub_360_int _ j]

/-- The raw (unreduced) ecliptic-longitude expression of the approximation. -/
noncomputable def lamRaw (d : ℝ) : ℝ :=
  280.460 + 0.9856474 * d + 1.915 * sin ((357.528 + 0.9856003 * d) * rad)
    + 0.020 * sin (2 * ((357.528 + 0.9856003 * d)) * rad)

lemma sunLambda_sin (t : ℝ) : sin (sunLambda t * rad) = sin (lamRaw (sunD t) * rad) := by
  unfold sunLambda sunL sunG jsMod lamRaw
  have ha : 2 * ((357.528 + 0.9856003 * sunD t)
        - 360 * ((jsTrunc ((357.528 + 0.9856003 * sunD t) / 360) : ℤ) : ℝ))
      = 2 * (357.528 + 0.9856003 * sunD t)
        - 360 * (((2 * jsTrunc ((357.528 + 0.9856003 * sunD t) / 360) : ℤ)) : ℝ) := by
    push_cast; ring
  rw [ha]
  rw [sin_sub_360_int (357.528 + 0.9856003 * sunD t)
    (jsTrunc ((357.528 + 0.9856003 * sunD t) / 360))]
  rw [sin_sub_360_int (2 * (357.528 + 0.9856003 * sunD t))
    (2 * jsTrunc ((357.528 + 0.9856003 * sunD t) / 360))]
  have hb : ((280.460 + 0.9856474 * sunD t)
        - 360 * ((jsTrunc ((280.460 + 0.9856474 * sunD t) / 360) : ℤ) : ℝ))
        + 1.915 * sin ((357.528 + 0.9856003 * sunD t) * rad)
        + 0.020 * sin ((2 * (357.528 + 0.9856003 * sunD t)) * rad)
      = ((280.460 + 0.9856474 * sunD t
          + 1.915 * sin ((357.528 + 0.9856003 * sunD t) * rad)
          + 0.020 * sin (2 * ((357.528 + 0.9856003 * sunD t)) * rad))
        - 360 * ((jsTrunc ((280.460 + 0.9856474 * sunD t) / 360) : ℤ) : ℝ)) := by
    ring_nf
  rw [hb, sin_sub_360_int _ (jsTrunc ((280.460 + 0.9856474 * sunD t) / 360))]

lemma sunLambda_cos (t : ℝ) : cos (sunLambda t * rad) = cos (lamRaw (sunD t) * rad) := by
  unfold sunLambda sunL sunG jsMod lamRaw
  have ha : 2 * ((357.528 + 0.9856003 * sunD t)
        - 360 * ((jsTrunc ((357.528 + 0.9856003 * sunD t) / 360) : ℤ) : ℝ))
      = 2 * (357.528 + 0.9856003 * sunD t)
        - 360 * (((2 * jsTrunc ((357.528 + 0.9856003 * sunD t) / 360) : ℤ)) : ℝ) := by
    push_cast; ring
  rw [ha]
  rw [sin_sub_360_int (357.528 + 0.9856003 * sunD t)
    (jsTrunc ((357.528 + 0.9856003 * sunD t) / 360))]
  rw [sin_sub_360_int (2 * (357.528 + 0.9856003 * sunD t))
    (2 * jsTrunc ((357.528 + 0.9856003 * sunD t) / 360))]
  have hb : ((280.460 + 0.9856474 * sunD t)
        - 360 * ((jsTrunc ((280.460 + 0.9856474 * sunD t) / 360) : ℤ) : ℝ))
        + 1.915 * sin ((357.528 + 0.9856003 * sunD t) * rad)
        + 0.020 * sin ((2 * (357.528 + 0.9856003 * sunD t)) * rad)
      = ((280.460 + 0.9856474 * sunD t
          + 1.915 * sin ((357.528 + 0.9856003 * sunD t) * rad)
          + 0.020 * sin (2 * ((357.528 + 0.9856003 * sunD t)) * rad))
        - 360 * ((jsTrunc ((280.460 + 0.9856474 * sunD t) / 360) : ℤ) : ℝ)) := by
    ring_nf
  rw [hb, cos_sub_360_int _ (jsTrunc ((280.460 + 0.9856474 * sunD t) / 360))]

lemma specEclipticLong_sin (t : ℝ) :
    sin (specEclipticLong t * rad) = sin (lamRaw (specDays t) * rad) := by
  unfold specEclipticLong specMeanLong specMeanAnomaly specMod360 lamRaw
  have ha : 2 * ((357.528 + 0.9856003 * specDays t)
        - 360 * ((⌊(357.528 + 0.9856003 * specDays t) / 360⌋ : ℤ) : ℝ))
      = 2 * (357.528 + 0.9856003 * specDays t)
        - 360 * (((2 * ⌊(357.528 + 0.9856003 * specDays t) / 360⌋ : ℤ)) : ℝ) := by
    push_cast; ring
  rw [ha]
  rw [sin_sub_360_int (357.528 + 0.9856003 * specDays t)
    ⌊(357.528 + 0.9856003 * specDays t) / 360⌋]
  rw [sin_sub_360_int (2 * (357.528 + 0.9856003 * specDays t))
    (2 * ⌊(357.528 + 0.9856003 * specDays t) / 360⌋)]
  have hb : ((280.460 + 0.9856474 * specDays t)
        - 360 * ((⌊(280.460 + 0.9856474 * specDays t) / 360⌋ : ℤ) : ℝ))
        + 1.915 * sin ((357.528 + 0.9856003 * specDays t) * rad)
        + 0.020 * sin ((2 * (357.528 + 0.9856003 * specDays t)) * rad)
      = ((280.460 + 0.9856474 * specDays t
          + 1.915 * sin ((357.528 + 0.9856003 * specDays t) * rad)
          + 0.020 * sin (2 * ((357.528 + 0.9856003 * specDays t)) * rad))
        - 360 * ((⌊(280.460 + 0.9856474 * specDays t) / 360⌋ : ℤ) : ℝ)) := by
    ring_nf
  rw [hb, sin_sub_360_int _ ⌊(280.460 + 0.9856474 * specDays t) / 360⌋]

lemma sunD_eq_specDays (t : ℝ) : sunD t = specDays t := rfl

/-- C1: For every UTC instant `t`, `getSubsolarPoint` follows the spec's
formula sequence: with `d` the fractional days since J2000.0,
`L = (280.460 + 0.9856474 d) mod 360`, `g = (357.528 + 0.9856003 d) mod 360`,
`lambda = L + 1.915 sin g + 0.020 sin 2g`, `epsilon = 23.439 - 0.0000004 d`,
the returned latitude equals `asin (sin epsilon * sin lambda)` in degrees. -/
theorem subsolar_latitude_follows_spec_formulas (t : ℝ) :
    (getSubsolarPoint t).lat = specLatitude t := by
  show sunDec t = specLatitude t
  unfold sunDec specLatitude
  rw [sunLambda_sin, specEclipticLong_sin, sunD_eq_specDays]
  rfl

/-! The illumination sampler (source lines 66-67 and 74-79). -/

/-- `isDaylight`: the boolean day/night classification the mask loop computes
for an observer at `(lat, lon)` degrees given the subsolar point — the
spherical-law-of-cosines test `cosc > 0` of source lines 78-79, with the
degree-to-radian conversions of lines 66-67 and 74-75. -/
noncomputable def isDaylight (lat lon : ℝ) (subsolar : SubsolarPoint) : Bool :=
  decide (sin (lat * rad) * sin (subsolar.lat * rad)
    + cos (lat * rad) * cos (subsolar.lat * rad)
      * cos (lon * rad - subsolar.lon * rad) > 0)

/-- The spec's formula for the cosine of the angular separation:
`cos c = sin latObs * sin latSun + cos latObs * cos latSun * cos (lonObs - lonSun)`
(spec section 4.2), with degree inputs converted to radians. -/
noncomputable def specCosC (latObs lonObs latSun lonSun : ℝ) : ℝ :=
  sin (latObs * rad) * sin (latSun * rad)
    + cos (latObs * rad) * cos (latSun * rad) * cos ((lonObs - lonSun) * rad)

/-- C3: the sampler returns `true` (daylight) if and only if `cos c > 0` with
`cos c` given by the spec's spherical-law-of-cosines formula; the result is a
`Bool`, so there is no third classification between day and night. -/
theorem isDaylight_iff_cos_zenith_pos (latObs lonObs : ℝ) (s : SubsolarPoint) :
    isDaylight latObs lonObs s = true ↔ 0 < specCosC latObs lonObs s.lat s.lon := by
  unfold isDaylight specCosC
  rw [decide_eq_true_iff]
  have h : (lonObs - s.lon) * rad = lonObs * rad - s.lon * rad := by ring
  rw [h]

/-- C6: at every subsolar point with latitude strictly between `-90` and `90`,
the sampler reports daylight at the subsolar point itself and night at its
antipode `(-lat, lon + 180)`. -/
theorem daylight_at_subsolar_night_at_antipode (s : SubsolarPoint)
    (h1 : -90 < s.lat) (h2 : s.lat < 90) :
    isDaylight s.lat s.lon s = true ∧ isDaylight (-s.lat) (s.lon + 180) s = false := by
  constructor
  · unfold isDaylight
    rw [decide_eq_true_iff]
    have h3 : s.lon * rad - s.lon * rad = 0 := sub_self _
    rw [h3, Real.cos_zero]
    have h4 := Real.sin_sq_add_cos_sq (s.lat * rad)
    nlinarith
  · unfold isDaylight
    rw [decide_eq_false_iff_not]
    have h3 : (s.lon + 180) * rad - s.lon * rad = π := by unfold rad; ring
    have h6 : -s.lat * rad = -(s.lat * rad) := by ring
    rw [h3, Real.cos_pi, h6, Real.sin_neg, Real.cos_neg]
    intro h5
    have h4 := Real.sin_sq_add_cos_sq (s.lat * rad)
    nlinarith

/-- Witness for C6 at the subsolar point `(0, 0)`. -/
theorem daylight_at_subsolar_night_at_antipode_witness :
    (-90 < (0 : ℝ)) ∧ ((0 : ℝ) < 90) ∧
      (isDaylight (SubsolarPoint.mk 0 0).lat (SubsolarPoint.mk 0 0).lon ⟨0, 0⟩ = true ∧
        isDaylight (-(SubsolarPoint.mk 0 0).lat) ((SubsolarPoint.mk 0 0).lon + 180) ⟨0, 0⟩ = false) :=
  ⟨by norm_num, by norm_num,
    daylight_at_subsolar_night_at_antipode ⟨0, 0⟩ (by norm_num) (by norm_num)⟩

/-! Range facts about the latitude (C10 and the latitude half of C2). -/

/-- The arcsine of a product `sin e * s` with `|s| ≤ 1` is bounded in absolute
value by `|e|`. -/
lemma abs_arcsin_sin_mul_le (e s : ℝ) (hs : |s| ≤ 1) : |arcsin (sin e * s)| ≤ |e| := by
  rcases le_or_lt |e| (π / 2) with he | he
  · have habs : |arcsin (sin e * s)| = arcsin |sin e * s| := by
      rcases le_or_lt 0 (sin e * s) with h | h
      · rw [abs_of_nonneg h, abs_of_nonneg (Real.arcsin_nonneg.mpr h)]
      · have h6 : arcsin (sin e * s) ≤ 0 := Real.arcsin_nonpos.mpr (le_of_lt h)
        rw [abs_of_nonpos h6, abs_of_neg h, ← Real.arcsin_neg]
    rw [habs]
    have hsin : |sin e| = sin |e| := by
      rcases le_or_lt 0 e with h4 | h4
      · have h7 : e ≤ π := by
          have := le_abs_self e
          linarith [Real.pi_pos]
        rw [abs_of_nonneg h4, abs_of_nonneg (Real.sin_nonneg_of_nonneg_of_le_pi h4 h7)]
      · have h8 : -π ≤ e := by
          have := abs_le.mp he
          linarith [Real.pi_pos]
        have h9 : sin e ≤ 0 := Real.sin_nonpos_of_nonnpos_of_neg_pi_le (le_of_lt h4) h8
        rw [abs_of_neg h4, abs_of_nonpos h9, Real.sin_neg]
    have h2 : |sin e * s| ≤ sin |e| := by
      rw [abs_mul, ← hsin]
      calc |sin e| * |s| ≤ |sin e| * 1 := mul_le_mul_of_nonneg_left hs (abs_nonneg _)
        _ = |sin e| := mul_one _
    calc arcsin |sin e * s| ≤ arcsin (sin |e|) := Real.monotone_arcsin h2
      _ = |e| := Real.arcsin_sin (by linarith [abs_nonneg e, Real.pi_pos]) he
  · have h1 : |arcsin (sin e * s)| ≤ π / 2 :=
      abs_le.mpr ⟨Real.neg_pi_div_two_le_arcsin _, Real.arcsin_le_pi_div_two _⟩
    linarith

/-- C10: the absolute value of the returned subsolar latitude never exceeds
the absolute value of the obliquity `23.439 - 0.0000004 d` degrees — a
strictly tighter bound than the `[-90, 90]` range, because the latitude is
`asin (sin epsilon * sin lambda)` and `|sin epsilon * sin lambda| ≤ |sin epsilon|`. -/
theorem subsolar_latitude_bounded_by_obliquity (t : ℝ) :
    |(getSubsolarPoint t).lat| ≤ |23.439 - 0.0000004 * sunD t| := by
  show |sunDec t| ≤ _
  unfold sunDec
  rw [abs_div, abs_of_pos rad_pos, div_le_iff rad_pos]
  have key := abs_arcsin_sin_mul_le (sunEpsilon t * rad) (sin (sunLambda t * rad))
    (Real.abs_sin_le_one _)
  calc |arcsin (sin (sunEpsilon t * rad) * sin (sunLambda t * rad))|
      ≤ |sunEpsilon t * rad| := key
    _ = |sunEpsilon t| * rad := by rw [abs_mul, abs_of_pos rad_pos]
    _ = |23.439 - 0.0000004 * sunD t| * rad := rfl

/-! Range facts about the longitude (C2). -/

/-- The JavaScript remainder by a positive modulus lies strictly between
`-y` and `y`. -/
lemma jsMod_range (x : ℝ) {y : ℝ} (hy : 0 < y) : -y < jsMod x y ∧ jsMod x y < y := by
  unfold jsMod jsTrunc
  have hx : y * (x / y) = x := by field_simp
  split_ifs with h
  · have h1 : ((⌊x / y⌋ : ℤ) : ℝ) ≤ x / y := Int.floor_le _
    have h2 : x / y < (⌊x / y⌋ : ℝ) + 1 := Int.lt_floor_add_one _
    have h3 : y * ((⌊x / y⌋ : ℤ) : ℝ) ≤ y * (x / y) := by
      exact mul_le_mul_of_nonneg_left h1 (le_of_lt hy)
    have h4 : y * (x / y) < y * ((⌊x / y⌋ : ℝ) + 1) := by
      exact mul_lt_mul_of_pos_left h2 hy
    constructor <;> nlinarith
  · have h1 : x / y ≤ ((⌈x / y⌉ : ℤ) : ℝ) := Int.le_ceil _
    have h2 : ((⌈x / y⌉ : ℤ) : ℝ) < x / y + 1 := Int.ceil_lt_add_one _
    have h3 : y * (x / y) ≤ y * ((⌈x / y⌉ : ℤ) : ℝ) := by
      exact mul_le_mul_of_nonneg_left h1 (le_of_lt hy)
    have h4 : y * ((⌈x / y⌉ : ℤ) : ℝ) < y * (x / y + 1) := by
      exact mul_lt_mul_of_pos_left h2 hy
    constructor <;> nlinarith

/-- The final normalization step maps any value of `(-360, 360)` into the
closed interval `[-180, 180]`. -/
lemma normLon_range (v : ℝ) (h1 : -360 < v) (h2 : v < 360) :
    -180 ≤ normLon v ∧ normLon v ≤ 180 := by
  unfold normLon normLonStep1
  split_ifs <;> constructor <;> linarith

/-- Amended C2: the returned latitude lies in `[-90, 90]` and the returned
longitude lies in the closed interval `[-180, 180]`; the endpoint `-180` is
not excluded by the code's normalization (see the counterexample). -/
theorem subsolar_point_closed_ranges (t : ℝ) :
    (-90 ≤ (getSubsolarPoint t).lat ∧ (getSubsolarPoint t).lat ≤ 90) ∧
      (-180 ≤ (getSubsolarPoint t).lon ∧ (getSubsolarPoint t).lon ≤ 180) := by
  constructor
  · show -90 ≤ sunDec t ∧ sunDec t ≤ 90
    unfold sunDec
    have h90 : (90 : ℝ) * rad = π / 2 := by unfold rad; ring
    constructor
    · rw [le_div_iff rad_pos]
      have := Real.neg_pi_div_two_le_arcsin
        (sin (sunEpsilon t * rad) * sin (sunLambda t * rad))
      nlinarith [rad_pos, Real.pi_pos]
    · rw [div_le_iff rad_pos, h90]
      exact Real.arcsin_le_pi_div_two _
  · show -180 ≤ sunLon t ∧ sunLon t ≤ 180
    unfold sunLon
    have h := jsMod_range (sunRA t - sunGMST t) (by norm_num : (0:ℝ) < 360)
    exact normLon_range _ h.1 h.2

/-! The day/night mask renderer (source lines 53-96), modelled as the trace of
samples, byte writes and host calls the pixel loop performs. -/

/-- Loop indices `0, step, 2*step, ...` below `limit`, as visited by the
strided for-loops of source lines 71-72. -/
def strideList (limit step : ℕ) : List ℕ :=
  (List.range limit).filter (fun i => decide (i % step = 0))

/-- The sample cells of one render pass (source lines 71-73): the loop
inverse-projects exactly the top-left pixel `(x, y)` of each cell. -/
def sampleCells (w h step : ℕ) : List (ℕ × ℕ) :=
  (strideList h step).flatMap (fun y => (strideList w step).map (fun x => (x, y)))

/-- Byte writes of the block fill for one sample cell (source lines 83-90):
`(index, value)` pairs into the RGBA buffer, with the block clamped at the
right and bottom edges by the `y + yy < height` and `x + xx < width` loop
bounds. -/
def blockWrites (w h step x y alpha : ℕ) : List (ℕ × ℕ) :=
  ((List.range step).filter (fun yy => decide (y + yy < h))).flatMap (fun yy =>
    ((List.range step).filter (fun xx => decide (x + xx < w))).flatMap (fun xx =>
      [(((y + yy) * w + (x + xx)) * 4, 0),
       (((y + yy) * w + (x + xx)) * 4 + 1, 0),
       (((y + yy) * w + (x + xx)) * 4 + 2, 0),
       (((y + yy) * w + (x + xx)) * 4 + 3, alpha)]))

/-- All byte writes of one render pass (source lines 71-92), with the alpha
of each cell chosen by the day/night sample: `0` if daylight, `90` if night
(source line 81). -/
def maskWrites (w h step : ℕ) (day : ℕ → ℕ → Bool) : List (ℕ × ℕ) :=
  (strideList h step).flatMap (fun y =>
    (strideList w step).flatMap (fun x =>
      blockWrites w h step x y (if day x y then 0 else 90)))

/-- One byte store `data[idx] = v`.  `List.set` ignores an out-of-range
index, the store semantics of a `Uint8ClampedArray`. -/
def writeByte (b : List ℕ) (p : ℕ × ℕ) : List ℕ := b.set p.1 p.2

/-- The buffer after applying a write list to the all-zero RGBA buffer
returned by `createImageData` (source line 62). -/
def applyWrites (size : ℕ) (ws : List (ℕ × ℕ)) : List ℕ :=
  ws.foldl writeByte (List.replicate size 0)

/-- One call of `drawSunlightMask` (source lines 53-96) as a trace:
`created` records the `createImageData(width, height)` call (line 62),
`samples` the `layerPointToLatLng` inverse projections (line 73), `writes`
the byte stores (lines 83-90), `buffer` the final image data, and `blits`
the `putImageData(imageData, 0, 0)` call (line 95). -/
structure RenderTrace where
  created : List (ℕ × ℕ)
  samples : List (ℕ × ℕ)
  writes : List (ℕ × ℕ)
  buffer : List ℕ
  blits : List (ℕ × ℕ)

/-- The renderer (source lines 53-96).  `w`, `h` are the canvas dimensions,
`pixelToGeo` the host map's inverse projection (degrees), `step` the sample
stride (the source fixes `step = 2` on line 70).  Both `createImageData` and
`putImageData` are performed unconditionally; there is no early return for a
degenerate canvas. -/
noncomputable def drawSunlightMask (w h step : ℕ) (pixelToGeo : ℕ → ℕ → ℝ × ℝ)
    (subsolar : SubsolarPoint) : RenderTrace :=
  { created := [(w, h)]
    samples := sampleCells w h step
    writes := maskWrites w h step
      (fun x y => isDaylight (pixelToGeo x y).1 (pixelToGeo x y).2 subsolar)
    buffer := applyWrites (w * h * 4) (maskWrites w h step
      (fun x y => isDaylight (pixelToGeo x y).1 (pixelToGeo x y).2 subsolar))
    blits := [(0, 0)] }

lemma mem_strideList {limit step i : ℕ} :
    i ∈ strideList limit step ↔ i < limit ∧ i % step = 0 := by
  simp [strideList, List.mem_filter, List.mem_range]

lemma foldl_writeByte_length (ws : List (ℕ × ℕ)) (b : List ℕ) :
    (ws.foldl writeByte b).length = b.length := by
  induction ws generalizing b with
  | nil => rfl
  | cons q tl ih =>
    rw [List.foldl_cons, ih]
    simp [writeByte]

lemma foldl_writeByte_get_of_not_mem {i : ℕ} (ws : List (ℕ × ℕ)) (b : List ℕ)
    (h : ∀ p ∈ ws, p.1 ≠ i) : (ws.foldl writeByte b)[i]? = b[i]? := by
  induction ws generalizing b with
  | nil => rfl
  | cons q tl ih =>
    rw [List.foldl_cons, ih _ (fun p hp => h p (List.mem_cons_of_mem _ hp))]
    exact List.getElem?_set_ne (h q (List.mem_cons_self _ _))

lemma foldl_writeByte_get_unique {i v : ℕ} (ws : List (ℕ × ℕ)) (b : List ℕ)
    (hi : i < b.length) (hmem : (i, v) ∈ ws)
    (huniq : ∀ p ∈ ws, p.1 = i → p.2 = v) :
    (ws.foldl writeByte b)[i]? = some v := by
  induction ws generalizing b with
  | nil => exact absurd hmem (List.not_mem_nil _)
  | cons q tl ih =>
    rw [List.foldl_cons]
    have hlen : i < (writeByte b q).length := by
      simpa [writeByte] using hi
    by_cases hq : q.1 = i
    · have hqv : q.2 = v := huniq q (List.mem_cons_self _ _) hq
      by_cases htl : ∀ p ∈ tl, p.1 ≠ i
      · rw [foldl_writeByte_get_of_not_mem tl _ htl]
        have hb : writeByte b q = b.set i v := by rw [writeByte, hq, hqv]
        rw [hb]
        exact List.getElem?_set_eq_of_lt v hi
      · push_neg at htl
        obtain ⟨p, hp, hpi⟩ := htl
        have hpv : p.2 = v := huniq p (List.mem_cons_of_mem _ hp) hpi
        have hpeq : p = (i, v) := Prod.ext hpi hpv
        exact ih _ hlen (hpeq ▸ hp) (fun r hr h1 => huniq r (List.mem_cons_of_mem _ hr) h1)
    · have hmem' : (i, v) ∈ tl := by
        rcases List.mem_cons.mp hmem with h1 | h1
        · exact absurd (by rw [← h1]) hq
        · exact h1
      exact ih _ hlen hmem' (fun r hr h1 => huniq r (List.mem_cons_of_mem _ hr) h1)

lemma applyWrites_length (size : ℕ) (ws : List (ℕ × ℕ)) :
    (applyWrites size ws).length = size := by
  rw [applyWrites, foldl_writeByte_length, List.length_replicate]

lemma applyWrites_get_unique {size i v : ℕ} (ws : List (ℕ × ℕ)) (hi : i < size)
    (hmem : (i, v) ∈ ws) (huniq : ∀ p ∈ ws, p.1 = i → p.2 = v) :
    (applyWrites size ws)[i]? = some v :=
  foldl_writeByte_get_unique ws _ (by rw [List.length_replicate]; exact hi) hmem huniq

lemma rowcol_unique {w a b c d : ℕ} (h1 : a < w) (h2 : c < w)
    (h : b * w + a = d * w + c) : b = d ∧ a = c := by
  have hbd : b = d := by
    by_contra hne
    rcases Nat.lt_or_ge b d with hlt | hge
    · have h2' : (b + 1) * w ≤ d * w := Nat.mul_le_mul_right w hlt
      have h3 : (b + 1) * w = b * w + w := by ring
      linarith
    · have hlt : d < b := lt_of_le_of_ne hge (Ne.symm hne)
      have h2' : (d + 1) * w ≤ b * w := Nat.mul_le_mul_right w hlt
      have h3 : (d + 1) * w = d * w + w := by ring
      linarith
  subst hbd
  exact ⟨rfl, Nat.add_left_cancel h⟩

lemma cell_unique {step x xx px : ℕ} (hstep : 0 < step) (hx0 : x % step = 0)
    (hxx : xx < step) (hsum : x + xx = px) : x = step * (px / step) := by
  obtain ⟨k, hk⟩ := Nat.dvd_of_mod_eq_zero hx0
  subst hk
  subst hsum
  rw [Nat.mul_add_div hstep, Nat.div_eq_of_lt hxx, Nat.add_zero]

lemma pixel_index_lt {w h a b c : ℕ} (ha : a < h) (hb : b < w) (hc : c < 4) :
    (a * w + b) * 4 + c < w * h * 4 := by
  have h1 : a * w + b < h * w := by
    have h2 : (a + 1) * w ≤ h * w := Nat.mul_le_mul_right w ha
    have h3 : (a + 1) * w = a * w + w := by ring
    linarith
  have h4 : w * h * 4 = h * w * 4 := by ring
  rw [h4]
  generalize hM : a * w + b = M at h1 ⊢
  generalize hN : h * w = N at h1 ⊢
  omega

lemma maskWrites_mem (w h step : ℕ) (day : ℕ → ℕ → Bool) {px py c : ℕ}
    (hstep : 0 < step) (hpx : px < w) (hpy : py < h) (hc : c < 4) :
    ((py * w + px) * 4 + c,
        if c = 3 then (if day (step * (px / step)) (step * (py / step)) then 0 else 90) else 0)
      ∈ maskWrites w h step day := by
  have hysum : step * (py / step) + py % step = py := Nat.div_add_mod py step
  have hxsum : step * (px / step) + px % step = px := Nat.div_add_mod px step
  unfold maskWrites
  apply List.mem_flatMap.mpr
  refine ⟨step * (py / step),
    mem_strideList.mpr ⟨lt_of_le_of_lt (Nat.le.intro hysum) hpy, Nat.mul_mod_right _ _⟩, ?_⟩
  apply List.mem_flatMap.mpr
  refine ⟨step * (px / step),
    mem_strideList.mpr ⟨lt_of_le_of_lt (Nat.le.intro hxsum) hpx, Nat.mul_mod_right _ _⟩, ?_⟩
  unfold blockWrites
  apply List.mem_flatMap.mpr
  refine ⟨py % step, List.mem_filter.mpr ⟨List.mem_range.mpr (Nat.mod_lt _ hstep), ?_⟩, ?_⟩
  · simp only [decide_eq_true_eq]
    rw [hysum]
    exact hpy
  apply List.mem_flatMap.mpr
  refine ⟨px % step, List.mem_filter.mpr ⟨List.mem_range.mpr (Nat.mod_lt _ hstep), ?_⟩, ?_⟩
  · simp only [decide_eq_true_eq]
    rw [hxsum]
    exact hpx
  have hidx : (step * (py / step) + py % step) * w + (step * (px / step) + px % step)
      = py * w + px := by rw [hysum, hxsum]
  rw [hidx]
  interval_cases c <;> simp

lemma maskWrites_inv {w h step : ℕ} {day : ℕ → ℕ → Bool} {p : ℕ × ℕ}
    (hp : p ∈ maskWrites w h step day) :
    ∃ x y xx yy c, x % step = 0 ∧ y % step = 0 ∧ xx < step ∧ yy < step ∧
      x + xx < w ∧ y + yy < h ∧ c < 4 ∧
      p.1 = ((y + yy) * w + (x + xx)) * 4 + c ∧
      p.2 = (if c = 3 then (if day x y then 0 else 90) else 0) := by
  unfold maskWrites at hp
  obtain ⟨y, hy, hp⟩ := List.mem_flatMap.mp hp
  obtain ⟨x, hx, hp⟩ := List.mem_flatMap.mp hp
  unfold blockWrites at hp
  obtain ⟨yy, hyy, hp⟩ := List.mem_flatMap.mp hp
  obtain ⟨xx, hxx, hp⟩ := List.mem_flatMap.mp hp
  obtain ⟨hy1, hy2⟩ := mem_strideList.mp hy
  obtain ⟨hx1, hx2⟩ := mem_strideList.mp hx
  have hyy1 : yy < step := List.mem_range.mp (List.mem_filter.mp hyy).1
  have hyy2 : y + yy < h := by
    have := (List.mem_filter.mp hyy).2
    simpa using this
  have hxx1 : xx < step := List.mem_range.mp (List.mem_filter.mp hxx).1
  have hxx2 : x + xx < w := by
    have := (List.mem_filter.mp hxx).2
    simpa using this
  simp only [List.mem_cons, List.not_mem_nil, or_false] at hp
  rcases hp with h | h | h | h
  · exact ⟨x, y, xx, yy, 0, hx2, hy2, hxx1, hyy1, hxx2, hyy2, by norm_num,
      by simp [h], by simp [h]⟩
  · exact ⟨x, y, xx, yy, 1, hx2, hy2, hxx1, hyy1, hxx2, hyy2, by norm_num,
      by simp [h], by simp [h]⟩
  · exact ⟨x, y, xx, yy, 2, hx2, hy2, hxx1, hyy1, hxx2, hyy2, by norm_num,
      by simp [h], by simp [h]⟩
  · exact ⟨x, y, xx, yy, 3, hx2, hy2, hxx1, hyy1, hxx2, hyy2, by norm_num,
      by simp [h], by simp [h]⟩

lemma maskWrites_value_unique {w h step : ℕ} (day : ℕ → ℕ → Bool) {px py c : ℕ}
    (hstep : 0 < step) (hpx : px < w) (hc : c < 4) :
    ∀ p ∈ maskWrites w h step day, p.1 = (py * w + px) * 4 + c →
      p.2 = (if c = 3 then (if day (step * (px / step)) (step * (py / step)) then 0 else 90)
        else 0) := by
  intro p hp hkey
  obtain ⟨x, y, xx, yy, c', hx0, hy0, hxxs, hyys, hxxw, hyyh, hc', hp1, hp2⟩ := maskWrites_inv hp
  rw [hp1] at hkey
  have hgen := hkey
  generalize hM : (y + yy) * w + (x + xx) = M at hgen
  generalize hN : py * w + px = N at hgen
  have hMN : M = N ∧ c' = c := by omega
  have hMN1 : (y + yy) * w + (x + xx) = py * w + px := by rw [hM, hN, hMN.1]
  have hrc := rowcol_unique hxxw hpx hMN1
  have hx' : x = step * (px / step) := cell_unique hstep hx0 hxxs hrc.2
  have hy' : y = step * (py / step) := cell_unique hstep hy0 hyys hrc.1
  rw [hp2, hMN.2, hx', hy']

/-- C4: every pixel of the rendered buffer is pure black with alpha `0` when
the pixel's sample cell is daylight and the fixed night constant `90`
otherwise: byte `c ∈ {0,1,2}` (red, green, blue) of pixel `(px, py)` is `0`,
and byte `c = 3` (alpha) is `0` or `90` according to the day/night sample of
the cell's top-left pixel — no other alpha value appears anywhere. -/
theorem render_buffer_black_binary_alpha (w h : ℕ) (pixelToGeo : ℕ → ℕ → ℝ × ℝ)
    (sub : SubsolarPoint) (hw : 0 < w) (hh : 0 < h) (px py c : ℕ)
    (hpx : px < w) (hpy : py < h) (hc : c < 4) :
    (drawSunlightMask w h 2 pixelToGeo sub).buffer[(py * w + px) * 4 + c]? =
      some (if c = 3 then
          (if isDaylight (pixelToGeo (2 * (px / 2)) (2 * (py / 2))).1
              (pixelToGeo (2 * (px / 2)) (2 * (py / 2))).2 sub then 0 else 90)
        else 0) := by
  show (applyWrites (w * h * 4) (maskWrites w h 2 _))[(py * w + px) * 4 + c]? = _
  exact applyWrites_get_unique _ (pixel_index_lt hpy hpx hc)
    (maskWrites_mem w h 2 _ (by norm_num) hpx hpy hc)
    (maskWrites_value_unique _ (by norm_num) hpx hc)

/-- Witness for C4 on a 1-by-1 viewport whose single pixel projects to the
subsolar point `(0, 0)`. -/
theorem render_buffer_black_binary_alpha_witness :
    (0 < 1) ∧
      (drawSunlightMask 1 1 2 (fun _ _ => ((0 : ℝ), (0 : ℝ))) ⟨0, 0⟩).buffer[
          ((0 : ℕ) * 1 + 0) * 4 + 3]? =
        some (if (3 : ℕ) = 3 then
            (if isDaylight ((fun (_ _ : ℕ) => ((0 : ℝ), (0 : ℝ))) (2 * (0 / 2)) (2 * (0 / 2))).1
                ((fun (_ _ : ℕ) => ((0 : ℝ), (0 : ℝ))) (2 * (0 / 2)) (2 * (0 / 2))).2 ⟨0, 0⟩
              then 0 else 90)
          else 0) :=
  ⟨by decide,
    render_buffer_black_binary_alpha 1 1 (fun _ _ => ((0 : ℝ), (0 : ℝ))) ⟨0, 0⟩
      (by decide) (by decide) 0 0 3 (by decide) (by decide) (by decide)⟩

/-- C7: the strided scan samples only cell origins `(x, y)` with `x`, `y`
multiples of the stride inside the viewport (inverse-projecting only the
top-left pixel of each cell), and every byte write of the render lands at an
index below `w * h * 4`, blocks being clamped at the right and bottom
edges. -/
theorem render_scan_stride_and_write_bounds (w h step : ℕ) (pixelToGeo : ℕ → ℕ → ℝ × ℝ)
    (sub : SubsolarPoint) (hstep : 1 ≤ step) (hw : 0 < w) (hh : 0 < h) :
    (∀ p ∈ (drawSunlightMask w h step pixelToGeo sub).samples,
        p.1 % step = 0 ∧ p.2 % step = 0 ∧ p.1 < w ∧ p.2 < h) ∧
      (∀ q ∈ (drawSunlightMask w h step pixelToGeo sub).writes, q.1 < w * h * 4) := by
  constructor
  · intro p hp
    have hp' : p ∈ sampleCells w h step := hp
    unfold sampleCells at hp'
    obtain ⟨y, hy, hp'⟩ := List.mem_flatMap.mp hp'
    obtain ⟨x, hx, hp'⟩ := List.mem_map.mp hp'
    obtain ⟨hy1, hy2⟩ := mem_strideList.mp hy
    obtain ⟨hx1, hx2⟩ := mem_strideList.mp hx
    cases hp'
    exact ⟨hx2, hy2, hx1, hy1⟩
  · intro q hq
    have hq' : q ∈ maskWrites w h step _ := hq
    obtain ⟨x, y, xx, yy, c, _, _, _, _, hxxw, hyyh, hc, hq1, _⟩ := maskWrites_inv hq'
    rw [hq1]
    exact pixel_index_lt hyyh hxxw hc

/-- Witness for C7 with stride 2 on a 1-by-1 viewport. -/
theorem render_scan_stride_and_write_bounds_witness :
    (1 ≤ 2) ∧
      ((∀ p ∈ (drawSunlightMask 1 1 2 (fun _ _ => ((0 : ℝ), (0 : ℝ))) ⟨0, 0⟩).samples,
          p.1 % 2 = 0 ∧ p.2 % 2 = 0 ∧ p.1 < 1 ∧ p.2 < 1) ∧
        (∀ q ∈ (drawSunlightMask 1 1 2 (fun _ _ => ((0 : ℝ), (0 : ℝ))) ⟨0, 0⟩).writes,
          q.1 < 1 * 1 * 4)) :=
  ⟨by decide,
    render_scan_stride_and_write_bounds 1 1 2 (fun _ _ => ((0 : ℝ), (0 : ℝ))) ⟨0, 0⟩
      (by decide) (by decide) (by decide)⟩

/-- Counterexample to C5 as stated: on a degenerate `0 × 1` viewport the
render is not a skip — it still performs its `createImageData` call and its
`putImageData` blit (there is no early return in the code), so it is false
that it returns "without producing a buffer and without blitting". -/
theorem render_degenerate_viewport_still_creates_and_blits :
    ¬ ((drawSunlightMask 0 1 2 (fun _ _ => ((0 : ℝ), (0 : ℝ))) ⟨0, 0⟩).created = [] ∧
        (drawSunlightMask 0 1 2 (fun _ _ => ((0 : ℝ), (0 : ℝ))) ⟨0, 0⟩).blits = []) := by
  intro hcl
  have h1 : (drawSunlightMask 0 1 2 (fun _ _ => ((0 : ℝ), (0 : ℝ))) ⟨0, 0⟩).created
      = [(0, 1)] := rfl
  rw [h1] at hcl
  exact absurd hcl.1 (by simp)

/-- Amended C5: on a viewport with zero width or zero height the render
invokes `pixelToGeo` zero times and performs zero byte writes, but it does
not return early: it still performs its `createImageData(w, h)` call and its
`putImageData` blit unconditionally. -/
theorem render_degenerate_viewport_no_sampling (w h step : ℕ)
    (pixelToGeo : ℕ → ℕ → ℝ × ℝ) (sub : SubsolarPoint) (hdeg : w = 0 ∨ h = 0) :
    (drawSunlightMask w h step pixelToGeo sub).samples = [] ∧
      (drawSunlightMask w h step pixelToGeo sub).writes = [] ∧
      (drawSunlightMask w h step pixelToGeo sub).created = [(w, h)] ∧
      (drawSunlightMask w h step pixelToGeo sub).blits = [(0, 0)] := by
  refine ⟨?_, ?_, rfl, rfl⟩
  · apply List.eq_nil_iff_forall_not_mem.mpr
    intro p hp
    have hp' : p ∈ sampleCells w h step := hp
    unfold sampleCells at hp'
    obtain ⟨y, hy, hp'⟩ := List.mem_flatMap.mp hp'
    obtain ⟨x, hx, hp'⟩ := List.mem_map.mp hp'
    obtain ⟨hy1, _⟩ := mem_strideList.mp hy
    obtain ⟨hx1, _⟩ := mem_strideList.mp hx
    rcases hdeg with h0 | h0 <;> omega
  · apply List.eq_nil_iff_forall_not_mem.mpr
    intro q hq
    have hq' : q ∈ maskWrites w h step _ := hq
    obtain ⟨x, y, xx, yy, c, _, _, _, _, hxxw, hyyh, _, _, _⟩ := maskWrites_inv hq'
    rcases hdeg with h0 | h0 <;> omega

/-- Witness for the amended C5 on a `0 × 1` viewport. -/
theorem render_degenerate_viewport_no_sampling_witness :
    ((0 : ℕ) = 0 ∨ (1 : ℕ) = 0) ∧
      ((drawSunlightMask 0 1 2 (fun _ _ => ((1 : ℝ), (1 : ℝ))) ⟨0, 0⟩).samples = [] ∧
        (drawSunlightMask 0 1 2 (fun _ _ => ((1 : ℝ), (1 : ℝ))) ⟨0, 0⟩).writes = [] ∧
        (drawSunlightMask 0 1 2 (fun _ _ => ((1 : ℝ), (1 : ℝ))) ⟨0, 0⟩).created = [(0, 1)] ∧
        (drawSunlightMask 0 1 2 (fun _ _ => ((1 : ℝ), (1 : ℝ))) ⟨0, 0⟩).blits = [(0, 0)]) :=
  ⟨Or.inl rfl,
    render_degenerate_viewport_no_sampling 0 1 2 (fun _ _ => ((1 : ℝ), (1 : ℝ))) ⟨0, 0⟩
      (Or.inl rfl)⟩

/-! The overlay lifecycle (source lines 103-150): the mount effect creates
the map and the canvas overlay, registers the `move zoom resize` listeners,
renders once, arms the periodic timer; the returned cleanup tears all of it
down. -/

/-- Observable lifecycle state of one overlay instance: whether the interval
timer is armed, whether the map listeners are registered, whether the canvas
overlay still has a parent node, whether the Leaflet map is alive, the armed
timer interval in milliseconds, and the list of subsolar points rendered so
far (in order). -/
structure OverlayState where
  timerActive : Bool
  listening : Bool
  overlayAttached : Bool
  mapAlive : Bool
  intervalMs : ℕ
  renders : List SubsolarPoint

/-- Effects of one run of the cleanup of source lines 144-149 on live
resources: `clearInterval` cancels a timer only when one is still armed (a
repeated `clearInterval` on the same id is a silent no-op), `map.off`
removes listeners only when still registered, the overlay surface is
removed from its parent only under the explicit `overlay.parentNode` guard
of line 147, and `map.remove()` removes the map only when it is still
alive. -/
structure CleanupFx where
  timerCancelled : Bool
  listenersRemoved : Bool
  surfaceFreed : Bool
  mapRemoved : Bool

/-- State after the cleanup of source lines 144-149 has run (or raised at
its final step, which mutates nothing further). -/
def cleanupState (s : OverlayState) : OverlayState :=
  { s with timerActive := false, listening := false, overlayAttached := false, mapAlive := false }

/-- Outcome of one run of the cleanup of source lines 144-149: the state it
leaves behind, the effects it performed, and whether it raised. -/
structure CleanupResult where
  state : OverlayState
  fx : CleanupFx
  raised : Bool

/-- One run of the cleanup of source lines 144-149.  `clearInterval`
(line 145) and `map.off` (line 146) are silently idempotent host calls, and
the overlay removal (line 147) is guarded by `overlay.parentNode`; but
`map.remove()` (line 148) is unguarded, and Leaflet 1.x's `Map.remove`
throws when invoked on an already-removed map (its container-stamp check
fails once the container's stamp has been deleted by the first removal).
The raise happens at the last step, after the earlier steps have already
executed as no-ops, so the resulting state is `cleanupState s` either
way. -/
def cleanupRun (s : OverlayState) : CleanupResult :=
  { state := cleanupState s
    fx := { timerCancelled := s.timerActive
            listenersRemoved := s.listening
            surfaceFreed := s.overlayAttached
            mapRemoved := s.mapAlive }
    raised := !s.mapAlive }

/-- Host events driving the overlay lifecycle. -/
inductive HostEvent where
  | attach
  | timerTick
  | viewportChange
  | detach

/-- The scheduler step relation (source lines 103-150): `attach` (the mount
effect body) registers the listeners (line 135), renders once immediately
(line 138) and arms the periodic timer with interval `60 * 1000` ms
(line 139); a timer tick re-runs `render`, as does a `move`/`zoom`/`resize`
notification (line 134-135); `detach` runs the cleanup.  Each render calls
`getSubsolarPoint (new Date())` (lines 128-131), i.e. it uses the instant
`now` current at that render, never a stored earlier instant.  Ticks or
viewport events on a torn-down overlay are dropped. -/
noncomputable def schedStep (s : OverlayState) (e : HostEvent) (now : ℝ) : OverlayState :=
  match e with
  | .attach =>
      { timerActive := true, listening := true, overlayAttached := true,
        mapAlive := true, intervalMs := 60 * 1000,
        renders := s.renders ++ [getSubsolarPoint now] }
  | .timerTick =>
      if s.timerActive then { s with renders := s.renders ++ [getSubsolarPoint now] } else s
  | .viewportChange =>
      if s.listening then { s with renders := s.renders ++ [getSubsolarPoint now] } else s
  | .detach => cleanupState s

/-- Counterexample to C8 as stated: starting from a freshly attached
overlay, the second cleanup run is not error-free — it reaches the
unguarded `map.remove()` of line 148 with the map already removed, and
Leaflet's `Map.remove` raises there — so it is false that detaching twice
raises no error. -/
theorem second_detach_raises_in_code :
    ¬ ((cleanupRun (cleanupRun (OverlayState.mk true true true true 60000 [])).state).raised
        = false) := by
  intro h
  have h2 : (cleanupRun (cleanupRun (OverlayState.mk true true true true 60000 [])).state).raised
      = true := rfl
  rw [h] at h2
  exact Bool.noConfusion h2

/-- Amended C8: a second detach produces the same end state as a single
detach and performs none of its effects a second time — it cancels no
timer, removes no listeners, frees no surface (the `overlay.parentNode`
guard of line 147) and removes no map — but it is not a silent no-op: its
final, unguarded `map.remove()` (line 148) raises on the already-removed
map.  Only the steps before `map.remove()` are idempotent. -/
theorem detach_idempotent_except_map_remove_error (s : OverlayState) :
    (cleanupRun (cleanupRun s).state).state = (cleanupRun s).state ∧
      (cleanupRun (cleanupRun s).state).fx.timerCancelled = false ∧
      (cleanupRun (cleanupRun s).state).fx.listenersRemoved = false ∧
      (cleanupRun (cleanupRun s).state).fx.surfaceFreed = false ∧
      (cleanupRun (cleanupRun s).state).fx.mapRemoved = false ∧
      (cleanupRun (cleanupRun s).state).raised = true :=
  ⟨rfl, rfl, rfl, rfl, rfl, rfl⟩

/-- C9: in the scheduler's step relation, `attach` performs exactly one
immediate render and arms the periodic timer with interval `60000` ms, and
thereafter every timer tick and every viewport-change notification performs
exactly one render; each such render computes the subsolar point from the
instant current at that render (`getSubsolarPoint now`), not from a
previously used instant. -/
theorem scheduler_renders_use_current_instant (s : OverlayState) (now : ℝ)
    (ht : s.timerActive = true) (hl : s.listening = true) :
    (schedStep s .attach now).renders = s.renders ++ [getSubsolarPoint now] ∧
      (schedStep s .attach now).intervalMs = 60000 ∧
      (schedStep s .attach now).timerActive = true ∧
      (schedStep s .timerTick now).renders = s.renders ++ [getSubsolarPoint now] ∧
      (schedStep s .viewportChange now).renders = s.renders ++ [getSubsolarPoint now] := by
  refine ⟨rfl, rfl, rfl, ?_, ?_⟩
  · simp [schedStep, ht]
  · simp [schedStep, hl]

/-- Witness for C9 on a freshly attached overlay at instant `0`. -/
theorem scheduler_renders_use_current_instant_witness :
    ((OverlayState.mk true true true true 60000 []).timerActive = true) ∧
      ((schedStep (OverlayState.mk true true true true 60000 []) .attach 0).renders
          = (OverlayState.mk true true true true 60000 []).renders ++ [getSubsolarPoint 0] ∧
        (schedStep (OverlayState.mk true true true true 60000 []) .attach 0).intervalMs = 60000 ∧
        (schedStep (OverlayState.mk true true true true 60000 []) .attach 0).timerActive = true ∧
        (schedStep (OverlayState.mk true true true true 60000 []) .timerTick 0).renders
          = (OverlayState.mk true true true true 60000 []).renders ++ [getSubsolarPoint 0] ∧
        (schedStep (OverlayState.mk true true true true 60000 []) .viewportChange 0).renders
          = (OverlayState.mk true true true true 60000 []).renders ++ [getSubsolarPoint 0]) :=
  ⟨rfl, scheduler_renders_use_current_instant
    (OverlayState.mk true true true true 60000 []) 0 rfl rfl⟩

/-! Counterexample development for C2.  The code's longitude normalization
returns exactly `-180` whenever `ra - GMST` is exactly `-180`, and such an
instant exists: we locate one by the intermediate value theorem inside a
quarter-day window in which every sign condition is controlled by exact
rational arithmetic (no numerical bounds on transcendental values are
needed). -/

/-- The raw obliquity polynomial of source line 27, as a function of days. -/
noncomputable def epsRaw (d : ℝ) : ℝ := 23.439 - 0.0000004 * d

/-- Sine of the hour angle scaled by the radius of the projected sun
direction: `termH d = x * sin θ - y * cos θ` with `θ` the raw GMST angle and
`(x, y)` the right-ascension direction vector of source lines 34-35.  It
vanishes exactly when GMST and right ascension agree modulo 180 degrees. -/
noncomputable def termH (d : ℝ) : ℝ :=
  cos (lamRaw d * rad) * sin (gmstRaw d * rad)
    - cos (epsRaw d * rad) * sin (lamRaw d * rad) * cos (gmstRaw d * rad)

/-- Left end of the search window (in days since J2000): the exact rational
instant at which the raw GMST polynomial equals `44100 = 245 * 180`. -/
noncomputable def dLo : ℝ := 4381953938163000 / 36098564736629

/-- Right end of the search window: raw GMST exactly `44190 = 245.5 * 180`. -/
noncomputable def dHi : ℝ := 4390953938163000 / 36098564736629

lemma gmstRaw_dLo : gmstRaw dLo = 44100 := by
  unfold gmstRaw dLo
  norm_num

lemma gmstRaw_dHi : gmstRaw dHi = 44190 := by
  unfold gmstRaw dHi
  norm_num

lemma dLo_lt_dHi : dLo < dHi := by
  unfold dLo dHi
  norm_num

lemma window_d_bounds {d : ℝ} (hd : d ∈ Set.Icc dLo dHi) : 121.38 ≤ d ∧ d ≤ 121.64 := by
  obtain ⟨h1, h2⟩ := hd
  constructor
  · calc (121.38 : ℝ) ≤ dLo := by unfold dLo; norm_num
      _ ≤ d := h1
  · calc d ≤ dHi := h2
      _ ≤ 121.64 := by unfold dHi; norm_num

/-- Inside the window the raw ecliptic longitude stays in `[398.1, 402.3]`:
the linear part moves by a fraction of a degree and the two sine corrections
are bounded by `1.915 + 0.020`. -/
lemma lamRaw_window {d : ℝ} (hd : d ∈ Set.Icc dLo dHi) :
    398.1 ≤ lamRaw d ∧ lamRaw d ≤ 402.3 := by
  obtain ⟨hdLo, hdHi⟩ := window_d_bounds hd
  unfold lamRaw
  have hs1 : -1 ≤ sin ((357.528 + 0.9856003 * d) * rad) := Real.neg_one_le_sin _
  have hs1' : sin ((357.528 + 0.9856003 * d) * rad) ≤ 1 := Real.sin_le_one _
  have hs2 : -1 ≤ sin (2 * ((357.528 + 0.9856003 * d)) * rad) := Real.neg_one_le_sin _
  have hs2' : sin (2 * ((357.528 + 0.9856003 * d)) * rad) ≤ 1 := Real.sin_le_one _
  constructor <;> linarith

lemma sin_sub_360 (x : ℝ) : sin ((x - 360) * rad) = sin (x * rad) := by
  have h := sin_sub_360_int x 1
  push_cast at h
  simpa using h

lemma cos_sub_360 (x : ℝ) : cos ((x - 360) * rad) = cos (x * rad) := by
  have h := cos_sub_360_int x 1
  push_cast at h
  simpa using h

lemma deg_angle_in_quadrant {a : ℝ} (h1 : 0 < a) (h2 : a < 90) :
    0 < a * rad ∧ a * rad < π / 2 := by
  refine ⟨mul_pos h1 rad_pos, ?_⟩
  have h90 : (90 : ℝ) * rad = π / 2 := by unfold rad; ring
  have h3 := mul_lt_mul_of_pos_right h2 rad_pos
  linarith

/-- Inside the window `x = cos lambda > 0`: the reduced ecliptic longitude
lies in `(38.1, 42.3)`, the first quadrant. -/
lemma window_x_pos {d : ℝ} (hd : d ∈ Set.Icc dLo dHi) : 0 < cos (lamRaw d * rad) := by
  obtain ⟨hw1, hw2⟩ := lamRaw_window hd
  rw [← cos_sub_360 (lamRaw d)]
  have hq := deg_angle_in_quadrant (a := lamRaw d - 360) (by linarith) (by linarith)
  apply Real.cos_pos_of_mem_Ioo
  constructor
  · have := Real.pi_pos
    linarith [hq.1]
  · exact hq.2

/-- Inside the window `sin lambda > 0`. -/
lemma window_sinlam_pos {d : ℝ} (hd : d ∈ Set.Icc dLo dHi) : 0 < sin (lamRaw d * rad) := by
  obtain ⟨hw1, hw2⟩ := lamRaw_window hd
  rw [← sin_sub_360 (lamRaw d)]
  have hq := deg_angle_in_quadrant (a := lamRaw d - 360) (by linarith) (by linarith)
  apply Real.sin_pos_of_pos_of_lt_pi hq.1
  have := Real.pi_pos
  linarith [hq.2]

/-- Inside the window `cos epsilon > 0`: the obliquity is about `23.44`
degrees. -/
lemma window_coseps_pos {d : ℝ} (hd : d ∈ Set.Icc dLo dHi) : 0 < cos (epsRaw d * rad) := by
  obtain ⟨hd1, hd2⟩ := window_d_bounds hd
  have he1 : 0 < epsRaw d := by unfold epsRaw; linarith
  have he2 : epsRaw d < 90 := by unfold epsRaw; linarith
  have hq := deg_angle_in_quadrant he1 he2
  apply Real.cos_pos_of_mem_Ioo
  constructor
  · have := Real.pi_pos
    linarith [hq.1]
  · exact hq.2

lemma termH_dLo_pos : 0 < termH dLo := by
  have hmem : dLo ∈ Set.Icc dLo dHi := ⟨le_refl _, le_of_lt dLo_lt_dHi⟩
  unfold termH
  have h1 : gmstRaw dLo * rad = 245 * π := by
    rw [gmstRaw_dLo]
    unfold rad
    ring
  have hsin : sin (gmstRaw dLo * rad) = 0 := by
    rw [h1, show (245 : ℝ) * π = ((245 : ℤ) : ℝ) * π by norm_num, Real.sin_int_mul_pi]
  have hcos : cos (gmstRaw dLo * rad) = -1 := by
    rw [h1, show (245 : ℝ) * π = π + ((122 : ℤ) : ℝ) * (2 * π) by push_cast; ring,
      Real.cos_add_int_mul_two_pi, Real.cos_pi]
  rw [hsin, hcos]
  have hy := window_sinlam_pos hmem
  have he := window_coseps_pos hmem
  nlinarith

lemma termH_dHi_neg : termH dHi < 0 := by
  have hmem : dHi ∈ Set.Icc dLo dHi := ⟨le_of_lt dLo_lt_dHi, le_refl _⟩
  unfold termH
  have h1 : gmstRaw dHi * rad = (π / 2 + π) + ((122 : ℤ) : ℝ) * (2 * π) := by
    rw [gmstRaw_dHi]
    unfold rad
    push_cast
    ring
  have hsin : sin (gmstRaw dHi * rad) = -1 := by
    rw [h1, Real.sin_add_int_mul_two_pi, Real.sin_add_pi, Real.sin_pi_div_two]
  have hcos : cos (gmstRaw dHi * rad) = 0 := by
    rw [h1, Real.cos_add_int_mul_two_pi, Real.cos_add_pi, Real.cos_pi_div_two, neg_zero]
  rw [hsin, hcos]
  have hx := window_x_pos hmem
  nlinarith

lemma termH_continuous : Continuous termH := by
  unfold termH lamRaw gmstRaw epsRaw
  fun_prop

lemma termH_has_root : ∃ d ∈ Set.Icc dLo dHi, termH d = 0 := by
  have hcont : ContinuousOn termH (Set.Icc dLo dHi) := termH_continuous.continuousOn
  have h0 : (0 : ℝ) ∈ Set.Icc (termH dHi) (termH dLo) :=
    ⟨le_of_lt termH_dHi_neg, le_of_lt termH_dLo_pos⟩
  obtain ⟨d, hd, hroot⟩ := intermediate_value_Icc' (le_of_lt dLo_lt_dHi) hcont h0
  exact ⟨d, hd, hroot⟩

/-- At a root of `termH` strictly inside the window, the code pipeline
returns longitude exactly `-180`: there `ra = arctan(y/x)` lands at
`GMST - 180` exactly, `jsMod (-180) 360 = -180`, and neither normalization
branch of lines 44-45 moves `-180`. -/
lemma sunLon_of_root {dS : ℝ} (hmem : dS ∈ Set.Icc dLo dHi) (hroot : termH dS = 0)
    (hlt1 : dLo < dS) (hlt2 : dS < dHi) : sunLon (dS * dayMs + J2000) = -180 := by
  have hsunD : sunD (dS * dayMs + J2000) = dS := by
    unfold sunD dayMs J2000
    field_simp
  have hgm1 : 44100 < gmstRaw dS := by
    have h := gmstRaw_dLo
    unfold gmstRaw at h ⊢
    have hmul : 360.98564736629 * dLo < 360.98564736629 * dS :=
      mul_lt_mul_of_pos_left hlt1 (by norm_num)
    linarith
  have hgm2 : gmstRaw dS < 44190 := by
    have h := gmstRaw_dHi
    unfold gmstRaw at h ⊢
    have hmul : 360.98564736629 * dS < 360.98564736629 * dHi :=
      mul_lt_mul_of_pos_left hlt2 (by norm_num)
    linarith
  have hθ1 : 0 < gmstRaw dS * rad - 245 * π := by
    have h245 : (44100 : ℝ) * rad = 245 * π := by unfold rad; ring
    have h3 := mul_lt_mul_of_pos_right hgm1 rad_pos
    linarith
  have hθ2 : gmstRaw dS * rad - 245 * π < π / 2 := by
    have h2455 : (44190 : ℝ) * rad = 245 * π + π / 2 := by unfold rad; ring
    have h3 := mul_lt_mul_of_pos_right hgm2 rad_pos
    linarith
  have hx := window_x_pos hmem
  have hy := window_sinlam_pos hmem
  have he := window_coseps_pos hmem
  have heq : cos (lamRaw dS * rad) * sin (gmstRaw dS * rad)
      = cos (epsRaw dS * rad) * sin (lamRaw dS * rad) * cos (gmstRaw dS * rad) := by
    unfold termH at hroot
    linarith
  have hθeq : gmstRaw dS * rad
      = ((gmstRaw dS * rad - 245 * π) + π) + ((122 : ℤ) : ℝ) * (2 * π) := by
    push_cast
    ring
  have hsg : sin (gmstRaw dS * rad) = -sin (gmstRaw dS * rad - 245 * π) := by
    conv_lhs => rw [hθeq]
    rw [Real.sin_add_int_mul_two_pi, Real.sin_add_pi]
  have hcg : cos (gmstRaw dS * rad) = -cos (gmstRaw dS * rad - 245 * π) := by
    conv_lhs => rw [hθeq]
    rw [Real.cos_add_int_mul_two_pi, Real.cos_add_pi]
  rw [hsg, hcg] at heq
  have hcosθ : 0 < cos (gmstRaw dS * rad - 245 * π) := by
    apply Real.cos_pos_of_mem_Ioo
    constructor
    · have := Real.pi_pos
      linarith
    · exact hθ2
  have htan : Real.tan (gmstRaw dS * rad - 245 * π)
      = cos (epsRaw dS * rad) * sin (lamRaw dS * rad) / cos (lamRaw dS * rad) := by
    rw [Real.tan_eq_sin_div_cos, div_eq_div_iff (ne_of_gt hcosθ) (ne_of_gt hx)]
    linear_combination -heq
  have harctan : Real.arctan (cos (epsRaw dS * rad) * sin (lamRaw dS * rad)
        / cos (lamRaw dS * rad)) = gmstRaw dS * rad - 245 * π := by
    rw [← htan]
    apply Real.arctan_tan
    · have := Real.pi_pos
      linarith
    · exact hθ2
  have hEps : sunEpsilon (dS * dayMs + J2000) * rad = epsRaw dS * rad := by
    unfold sunEpsilon epsRaw
    rw [hsunD]
  have hLamS : sin (sunLambda (dS * dayMs + J2000) * rad) = sin (lamRaw dS * rad) := by
    rw [sunLambda_sin, hsunD]
  have hLamC : cos (sunLambda (dS * dayMs + J2000) * rad) = cos (lamRaw dS * rad) := by
    rw [sunLambda_cos, hsunD]
  have hra0 : sunRA0 (dS * dayMs + J2000) = (gmstRaw dS * rad - 245 * π) / rad := by
    unfold sunRA0
    rw [hEps, hLamS, hLamC]
    unfold atan2
    rw [if_pos hx, harctan]
  have hraNonneg : ¬ sunRA0 (dS * dayMs + J2000) < 0 := by
    rw [hra0]
    push_neg
    exact le_of_lt (div_pos hθ1 rad_pos)
  have hra : sunRA (dS * dayMs + J2000) = (gmstRaw dS * rad - 245 * π) / rad := by
    unfold sunRA
    rw [if_neg hraNonneg, hra0]
  have hGmst : sunGMST (dS * dayMs + J2000) = gmstRaw dS - 43920 := by
    unfold sunGMST jsMod jsTrunc
    rw [hsunD]
    have hpos : (0 : ℝ) ≤ gmstRaw dS / 360 := by
      apply div_nonneg _ (by norm_num)
      linarith
    rw [if_pos hpos]
    have hfloor : ⌊gmstRaw dS / 360⌋ = 122 := by
      rw [Int.floor_eq_iff]
      constructor
      · push_cast
        rw [le_div_iff (by norm_num : (0 : ℝ) < 360)]
        linarith
      · push_cast
        rw [div_lt_iff (by norm_num : (0 : ℝ) < 360)]
        linarith
    rw [hfloor]
    norm_num
  have hdiv : (gmstRaw dS * rad - 245 * π) / rad = gmstRaw dS - 44100 := by
    unfold rad
    field_simp
    ring
  have hdiff : sunRA (dS * dayMs + J2000) - sunGMST (dS * dayMs + J2000) = -180 := by
    rw [hra, hGmst, hdiv]
    ring
  unfold sunLon
  rw [hdiff]
  have hmod : jsMod (-180) 360 = -180 := by
    unfold jsMod jsTrunc
    rw [if_neg (by norm_num : ¬ (0 : ℝ) ≤ (-180) / 360)]
    have hceil : ⌈(-180 : ℝ) / 360⌉ = 0 := by
      rw [Int.ceil_eq_iff]
      constructor <;> norm_num
    rw [hceil]
    norm_num
  rw [hmod]
  unfold normLon normLonStep1
  norm_num

/-- There is an instant at which `getSubsolarPoint` returns longitude
exactly `-180`. -/
lemma exists_subsolar_lon_neg180 : ∃ t : ℝ, (getSubsolarPoint t).lon = -180 := by
  obtain ⟨dS, hmem, hroot⟩ := termH_has_root
  have hne1 : dS ≠ dLo := by
    intro h
    rw [h] at hroot
    exact absurd hroot (ne_of_gt termH_dLo_pos)
  have hne2 : dS ≠ dHi := by
    intro h
    rw [h] at hroot
    exact absurd hroot (ne_of_lt termH_dHi_neg)
  refine ⟨dS * dayMs + J2000, ?_⟩
  show sunLon _ = -180
  exact sunLon_of_root hmem hroot (lt_of_le_of_ne hmem.1 (Ne.symm hne1))
    (lt_of_le_of_ne hmem.2 hne2)

/-- Counterexample to C2 as stated: it is not the case that every instant
yields a latitude in `[-90, 90]` and a longitude in the half-open interval
`(-180, 180]` — at an instant where `ra - GMST` normalizes to exactly
`-180`, the returned longitude is `-180`, violating the strict lower
bound. -/
theorem subsolar_longitude_not_always_above_neg180 :
    ¬ ∀ t : ℝ, ((-90 ≤ (getSubsolarPoint t).lat ∧ (getSubsolarPoint t).lat ≤ 90) ∧
      (-180 < (getSubsolarPoint t).lon ∧ (getSubsolarPoint t).lon ≤ 180)) := by
  intro hall
  obtain ⟨t, ht⟩ := exists_subsolar_lon_neg180
  have h := (hall t).2.1
  rw [ht] at h
  exact lt_irrefl _ h
